import Mathlib

/-
Verification of the resilience wrapper in src/utils/circuitBreaker.ts:
the CircuitBreaker state machine, the RetryManager backoff helper and the
CircuitBreakerRegistry. JavaScript numbers that may hold `undefined` or
`NaN` are embedded as `Option Nat` (`none` stands for undefined/NaN), and
every JS comparison against such a value is modelled as false, matching
JS semantics (`x >= undefined` and `x < NaN` are both false). Timestamps
from `Date.now()` are explicit `Nat` parameters. Asynchronous operations
are embedded by their outcome: `Except ε α` gives the settled result of
one invocation of the wrapped operation.
-/

namespace SlashNews

/-- The three breaker states of circuitBreaker.ts (CircuitState const). -/
inductive CircuitState where
  | CLOSED
  | OPEN
  | HALF_OPEN
deriving DecidableEq

/-- CircuitBreakerOptions, as they sit on a breaker instance. Each field is
`Option Nat` because `getOrCreateBreaker` casts a `Partial` options object
wholesale (`options as CircuitBreakerOptions`), so any field may be
`undefined` at runtime. -/
structure CircuitBreakerOptions where
  failureThreshold : Option Nat
  recoveryTimeout : Option Nat
  monitoringPeriod : Option Nat
deriving DecidableEq

/-- The constructor default options of CircuitBreaker (threshold 5,
recovery 30000 ms, monitoring 10000 ms). -/
def defaultOptions : CircuitBreakerOptions :=
  { failureThreshold := some 5, recoveryTimeout := some 30000,
    monitoringPeriod := some 10000 }

/-- The mutable fields of a CircuitBreaker instance. -/
structure CircuitBreaker where
  failureCount : Nat
  successCount : Nat
  timeoutCount : Nat
  lastFailureTime : Option Nat
  nextRetryTime : Option Nat
  state : CircuitState
  options : CircuitBreakerOptions
deriving DecidableEq

/-- The CircuitBreaker constructor: a JS default parameter applies only when
the argument is `undefined`, so `none` selects `defaultOptions` and
`some o` installs `o` as given (even if fields of `o` are undefined). -/
def mkCircuitBreaker (opts : Option CircuitBreakerOptions) : CircuitBreaker :=
  { failureCount := 0, successCount := 0, timeoutCount := 0,
    lastFailureTime := none, nextRetryTime := some 0,
    state := .CLOSED, options := opts.getD defaultOptions }

/-- Comparison `now < t` for a JS number `t` that may be NaN or undefined:
any comparison against NaN/undefined is false. -/
def timeLt (now : Nat) : Option Nat → Bool
  | some v => decide (now < v)
  | none => false

/-- CircuitBreaker.onSuccess: bump successCount, zero failureCount, and
leave HALF_OPEN for CLOSED. -/
def onSuccess (b : CircuitBreaker) : CircuitBreaker :=
  let b1 := { b with successCount := b.successCount + 1, failureCount := 0 }
  if b1.state = .HALF_OPEN then { b1 with state := .CLOSED } else b1

/-- CircuitBreaker.onFailure at time `now`: bump failureCount, record
`lastFailureTime`, and when `failureCount >= failureThreshold` (false when
the threshold is undefined) go OPEN with
`nextRetryTime = now + recoveryTimeout` (NaN when the timeout is undefined). -/
def onFailure (b : CircuitBreaker) (now : Nat) : CircuitBreaker :=
  let b1 := { b with failureCount := b.failureCount + 1,
                     lastFailureTime := some now }
  match b.options.failureThreshold with
  | some t =>
    if t ≤ b1.failureCount then
      { b1 with state := .OPEN,
                nextRetryTime := b.options.recoveryTimeout.map (fun r => now + r) }
    else b1
  | none => b1

/-- The guard at the top of CircuitBreaker.execute, up to the first await
point: either reject (`false`, breaker stays put) or proceed (`true`),
moving OPEN to HALF_OPEN when the retry timestamp has passed. -/
def beginExecute (b : CircuitBreaker) (now : Nat) : CircuitBreaker × Bool :=
  if b.state = .OPEN then
    if timeLt now b.nextRetryTime then (b, false)
    else ({ b with state := .HALF_OPEN }, true)
  else (b, true)

/-- Outcome of one CircuitBreaker.execute call: the operation value, the
operation error re-raised, or the breaker-open rejection. -/
inductive ExecResult (ε α : Type) where
  | ok (v : α)
  | opError (e : ε)
  | breakerOpen
deriving DecidableEq

/-- CircuitBreaker.execute at time `now`, where `op` is the settled outcome
the wrapped operation would have if invoked. Returns the result, the
updated breaker, and how many times the operation was invoked (0 or 1). -/
def execute {ε α : Type} (b : CircuitBreaker) (now : Nat) (op : Except ε α) :
    ExecResult ε α × CircuitBreaker × Nat :=
  let p := beginExecute b now
  if p.2 then
    match op with
    | .ok v => (.ok v, onSuccess p.1, 1)
    | .error e => (.opError e, onFailure p.1 now, 1)
  else (.breakerOpen, p.1, 0)

/-- A sequence of execute calls: each entry is the call time and the settled
outcome the operation would have on that call. Returns the final breaker
and the total number of operation invocations. -/
def runCalls {ε α : Type} (b : CircuitBreaker) :
    List (Nat × Except ε α) → CircuitBreaker × Nat
  | [] => (b, 0)
  | c :: rest =>
    let r := execute b c.1 c.2
    let f := runCalls r.2.1 rest
    (f.1, r.2.2 + f.2)

/-- A list of call times turned into always-failing calls. -/
def failCalls (ts : List Nat) : List (Nat × Except Unit Unit) :=
  ts.map (fun t => (t, Except.error ()))

/-- A freshly constructed breaker with fully specified options: failure
threshold `t` and recovery timeout `r` (CLOSED, failure count 0). -/
def freshBreaker (t r : Nat) : CircuitBreaker :=
  mkCircuitBreaker (some { failureThreshold := some t, recoveryTimeout := some r,
                           monitoringPeriod := some 10000 })

/-- A breaker observed mid-recovery: HALF_OPEN with the failure count that
took it past its threshold of 2 (recovery timeout 10). -/
def halfOpenProbe : CircuitBreaker :=
  { freshBreaker 2 10 with state := .HALF_OPEN, failureCount := 2 }

/-- A reachable HALF_OPEN state whose failure count is below the threshold,
built from the transition functions themselves: on a fresh breaker with
threshold 2 and recovery timeout 10, three calls begin while CLOSED; two
settle as failures at times 1 and 2, opening the breaker with next-retry
timestamp 12; the still-pending third settles as a success at time 3,
which zeroes the failure count but leaves the state OPEN (onSuccess only
moves HALF_OPEN to CLOSED); the next call begins at time 12, passes the
elapsed-timestamp guard and moves the breaker to HALF_OPEN with failure
count 0 and the old next-retry timestamp 12 still in place. -/
def staleHalfOpen : CircuitBreaker :=
  (beginExecute (onSuccess (onFailure (onFailure
    (beginExecute (beginExecute (beginExecute (freshBreaker 2 10) 0).1 0).1
      0).1 1) 2)) 12).1

/-- RetryOptions of the RetryManager. Delays are JS numbers; they are
embedded as rationals so that the fractional jitter factor is exact. -/
structure RetryOptions where
  maxRetries : Nat
  baseDelayMs : ℚ
  maxDelayMs : ℚ
  backoffMultiplier : ℚ
  jitter : Bool
deriving DecidableEq

/-- The RetryManager default options. -/
def defaultRetryOptions : RetryOptions :=
  { maxRetries := 3, baseDelayMs := 1000, maxDelayMs := 30000,
    backoffMultiplier := 2, jitter := true }

/-- The un-jittered backoff delay after failed attempt number `attempt`:
`Math.min(baseDelayMs * Math.pow(backoffMultiplier, attempt), maxDelayMs)`. -/
def rawDelay (cfg : RetryOptions) (attempt : Nat) : ℚ :=
  min (cfg.baseDelayMs * cfg.backoffMultiplier ^ attempt) cfg.maxDelayMs

/-- The delay actually slept after failed attempt number `attempt`: the raw
delay, plus `r * delay * 0.1` when jitter is on, where `r` is the
`Math.random()` draw for this attempt. -/
def computeDelay (cfg : RetryOptions) (r : ℚ) (attempt : Nat) : ℚ :=
  let d := rawDelay cfg attempt
  if cfg.jitter then d + r * d * (1 / 10) else d

/-- The loop body of RetryManager.executeWithRetry, from attempt number
`attempt` with `n` attempts still allowed after this one. `op i` is the
settled outcome of the i-th invocation of the operation and `rand i` the
`Math.random()` draw after attempt `i`. Returns the final outcome (the
success value, or the last error re-thrown), the number of invocations
made, and the list of backoff delays slept, in order. -/
def retryRun {ε α : Type} (op : Nat → Except ε α) (cfg : RetryOptions)
    (rand : Nat → ℚ) (attempt : Nat) : Nat → Except ε α × Nat × List ℚ
  | 0 => (op attempt, 1, [])
  | n + 1 =>
    match op attempt with
    | .ok v => (.ok v, 1, [])
    | .error _ =>
      let t := retryRun op cfg rand (attempt + 1) n
      (t.1, t.2.1 + 1, computeDelay cfg (rand attempt) attempt :: t.2.2)

/-- RetryManager.executeWithRetry: attempts 0 through `cfg.maxRetries`. -/
def executeWithRetry {ε α : Type} (op : Nat → Except ε α) (cfg : RetryOptions)
    (rand : Nat → ℚ) : Except ε α × Nat × List ℚ :=
  retryRun op cfg rand 0 cfg.maxRetries

/-- The retry loop of CircuitBreakerRegistry.executeWithCircuitBreaker in a
non-test environment: each retry attempt calls `execute` on the shared
breaker. `bop i` is the outcome the underlying operation would settle with
if invoked on attempt `i`, and `times i` is `Date.now()` at attempt `i`.
Returns (final result, final breaker, breaker calls made, operation
invocations made). -/
def cbRetryRun {ε α : Type} (bop : Nat → Except ε α) (times : Nat → Nat)
    (b : CircuitBreaker) (attempt : Nat) :
    Nat → ExecResult ε α × CircuitBreaker × Nat × Nat
  | 0 =>
    let r := execute b (times attempt) (bop attempt)
    (r.1, r.2.1, 1, r.2.2)
  | n + 1 =>
    let r := execute b (times attempt) (bop attempt)
    match r.1 with
    | .ok v => (.ok v, r.2.1, 1, r.2.2)
    | _ =>
      let t := cbRetryRun bop times r.2.1 (attempt + 1) n
      (t.1, t.2.1, t.2.2.1 + 1, r.2.2 + t.2.2.2)

/-- CircuitBreakerRegistry.executeWithCircuitBreaker (production path, test
bypass not taken) on an already-obtained breaker, with the default retry
budget unless overridden: runs `cfg.maxRetries + 1` attempts at most. -/
def executeWithCircuitBreaker {ε α : Type} (bop : Nat → Except ε α)
    (times : Nat → Nat) (b : CircuitBreaker) (cfg : RetryOptions) :
    ExecResult ε α × CircuitBreaker × Nat × Nat :=
  cbRetryRun bop times b 0 cfg.maxRetries

/-- The registry map from endpoint name to breaker instance. A mutable
`Map<string, CircuitBreaker>` is embedded as a function updated in place. -/
def Registry : Type := String → Option CircuitBreaker

/-- The registry before any breaker is created. -/
def emptyRegistry : Registry := fun _ => none

/-- An endpoint name used in concrete witnesses. -/
def hnEndpoint : String := "hn"

/-- Another endpoint name used in concrete witnesses. -/
def storiesEndpoint : String := "stories"

/-- CircuitBreakerRegistry.getOrCreateBreaker: create on first reference
(passing the possibly partial options through unchanged), return the stored
instance afterwards. -/
def getOrCreateBreaker (reg : Registry) (name : String)
    (opts : Option CircuitBreakerOptions) : CircuitBreaker × Registry :=
  match reg name with
  | some b => (b, reg)
  | none =>
    let b := mkCircuitBreaker opts
    (b, fun m => if m = name then some b else reg m)

/-- One call site executing through the registry: look up (or create) the
breaker for `name`, run one execute call on it, and store the updated
breaker back under `name` (in JS the instance mutates in place). -/
def registryExecute {ε α : Type} (reg : Registry) (name : String) (now : Nat)
    (op : Except ε α) : ExecResult ε α × Registry :=
  let g := getOrCreateBreaker reg name none
  let r := execute g.1 now op
  (r.1, fun m => if m = name then some r.2.1 else g.2 m)

/-- Count of begun (operation-invoking) execute calls over a list of call
times, where every begun call is still pending: only the synchronous guard
`beginExecute` of each call runs, none has settled yet. Models interleaved
calls on one breaker up to their first await point. -/
def pendingBegins (b : CircuitBreaker) : List Nat → CircuitBreaker × Nat
  | [] => (b, 0)
  | t :: ts =>
    let p := beginExecute b t
    let f := pendingBegins p.1 ts
    (f.1, (if p.2 then 1 else 0) + f.2)

/-! ### Basic lemmas about one execute call -/

theorem beginExecute_failureCount (b : CircuitBreaker) (now : Nat) :
    (beginExecute b now).1.failureCount = b.failureCount := by
  unfold beginExecute
  split
  · split <;> rfl
  · rfl

theorem beginExecute_options (b : CircuitBreaker) (now : Nat) :
    (beginExecute b now).1.options = b.options := by
  unfold beginExecute
  split
  · split <;> rfl
  · rfl

theorem onFailure_failureCount (b : CircuitBreaker) (now : Nat) :
    (onFailure b now).failureCount = b.failureCount + 1 := by
  unfold onFailure
  split
  · dsimp only
    split <;> rfl
  · rfl

theorem onFailure_options (b : CircuitBreaker) (now : Nat) :
    (onFailure b now).options = b.options := by
  unfold onFailure
  split
  · dsimp only
    split <;> rfl
  · rfl

theorem execute_error_eq {ε α : Type} (b : CircuitBreaker) (now : Nat) (e : ε) :
    execute (α := α) b now (Except.error e) =
      if (beginExecute b now).2 then
        (.opError e, onFailure (beginExecute b now).1 now, 1)
      else (.breakerOpen, (beginExecute b now).1, 0) := rfl

theorem execute_ok_eq {ε α : Type} (b : CircuitBreaker) (now : Nat) (v : α) :
    execute (ε := ε) b now (Except.ok v) =
      if (beginExecute b now).2 then (.ok v, onSuccess (beginExecute b now).1, 1)
      else (.breakerOpen, (beginExecute b now).1, 0) := rfl

theorem execute_inv_le {ε α : Type} (b : CircuitBreaker) (now : Nat)
    (op : Except ε α) : (execute b now op).2.2 ≤ 1 := by
  cases op with
  | ok v => rw [execute_ok_eq]; split <;> simp
  | error e => rw [execute_error_eq]; split <;> simp

/-- While OPEN and before the retry timestamp, execute rejects without
touching the breaker and without invoking the operation. -/
theorem execute_rejects {ε α : Type} (b : CircuitBreaker) (now : Nat)
    (op : Except ε α) (v : Nat) (hs : b.state = .OPEN)
    (hv : b.nextRetryTime = some v) (hlt : now < v) :
    execute b now op = (.breakerOpen, b, 0) := by
  have hb : beginExecute b now = (b, false) := by
    unfold beginExecute timeLt
    rw [hs, hv]
    simp [hlt]
  cases op with
  | ok w => rw [execute_ok_eq, hb]; simp
  | error e => rw [execute_error_eq, hb]; simp

/-- When the failure pushes the count to the threshold, onFailure goes OPEN
and schedules the retry at `now + recoveryTimeout`. -/
theorem onFailure_opens (b : CircuitBreaker) (now t r : Nat)
    (ht : b.options.failureThreshold = some t)
    (hr : b.options.recoveryTimeout = some r)
    (hge : t ≤ b.failureCount + 1) :
    (onFailure b now).state = .OPEN ∧
    (onFailure b now).nextRetryTime = some (now + r) := by
  unfold onFailure
  rw [ht]
  simp [hge, hr]

/-! ### Runs of consecutive failures -/

theorem runCalls_nil {ε α : Type} (b : CircuitBreaker) :
    runCalls (ε := ε) (α := α) b [] = (b, 0) := rfl

theorem runCalls_cons {ε α : Type} (b : CircuitBreaker) (c : Nat × Except ε α)
    (rest : List (Nat × Except ε α)) :
    runCalls b (c :: rest) =
      ((runCalls (execute b c.1 c.2).2.1 rest).1,
       (execute b c.1 c.2).2.2 + (runCalls (execute b c.1 c.2).2.1 rest).2) := rfl

theorem failCalls_nil : failCalls [] = [] := rfl

theorem failCalls_cons (t0 : Nat) (ts : List Nat) :
    failCalls (t0 :: ts) = (t0, Except.error ()) :: failCalls ts := rfl

theorem failCalls_length (ts : List Nat) : (failCalls ts).length = ts.length := by
  simp [failCalls]

theorem runCalls_inv_le {ε α : Type} (b : CircuitBreaker)
    (cs : List (Nat × Except ε α)) : (runCalls b cs).2 ≤ cs.length := by
  induction cs generalizing b with
  | nil => simp [runCalls_nil]
  | cons c rest ih =>
    rw [runCalls_cons]
    have h1 := execute_inv_le b c.1 c.2
    have h2 := ih (execute b c.1 c.2).2.1
    simp only [List.length_cons]
    omega

/-- An invoking failed call goes through onFailure of the begun breaker. -/
theorem execute_error_invoked {ε α : Type} (b : CircuitBreaker) (now : Nat)
    (e : ε) (hinv : (execute (α := α) b now (Except.error e)).2.2 = 1) :
    execute (α := α) b now (Except.error e) =
      (.opError e, onFailure (beginExecute b now).1 now, 1) := by
  cases hbe : (beginExecute b now).2 with
  | false =>
    rw [execute_error_eq, hbe] at hinv
    simp at hinv
  | true => rw [execute_error_eq, hbe]; simp

theorem execute_proceed_ok {ε α : Type} (b b1 : CircuitBreaker) (now : Nat)
    (v : α) (h : beginExecute b now = (b1, true)) :
    execute (ε := ε) b now (Except.ok v) = (.ok v, onSuccess b1, 1) := by
  rw [execute_ok_eq, h]
  rfl

theorem execute_proceed_error {ε α : Type} (b b1 : CircuitBreaker) (now : Nat)
    (e : ε) (h : beginExecute b now = (b1, true)) :
    execute (α := α) b now (Except.error e) =
      (.opError e, onFailure b1 now, 1) := by
  rw [execute_error_eq, h]
  rfl

/-- A run of consecutive operation failures, each of which actually invokes
the operation, with enough of them to reach the threshold, ends OPEN with
the retry scheduled from the last failure time. -/
theorem runFails_open (t r : Nat) (ts : List Nat) :
    ∀ (tN : Nat) (b : CircuitBreaker),
    b.options.failureThreshold = some t →
    b.options.recoveryTimeout = some r →
    (runCalls b (failCalls (ts ++ [tN]))).2 = ts.length + 1 →
    t ≤ b.failureCount + ts.length + 1 →
    (runCalls b (failCalls (ts ++ [tN]))).1.state = .OPEN ∧
    (runCalls b (failCalls (ts ++ [tN]))).1.nextRetryTime = some (tN + r) := by
  induction ts with
  | nil =>
    intro tN b ht hr hinv hge
    rw [List.nil_append, failCalls_cons, runCalls_cons] at hinv ⊢
    rw [failCalls_nil, runCalls_nil] at hinv ⊢
    dsimp only at hinv ⊢
    simp only [List.length_nil] at hinv hge
    simp only [Nat.add_zero, Nat.zero_add] at hinv
    rw [execute_error_invoked b tN () hinv]
    have hopen := onFailure_opens (beginExecute b tN).1 tN t r
      (by rw [beginExecute_options]; exact ht)
      (by rw [beginExecute_options]; exact hr)
      (by rw [beginExecute_failureCount]; omega)
    exact hopen
  | cons t0 ts ih =>
    intro tN b ht hr hinv hge
    rw [List.cons_append, failCalls_cons, runCalls_cons] at hinv ⊢
    dsimp only at hinv ⊢
    have hle1 := execute_inv_le b t0 (Except.error () : Except Unit Unit)
    have hle2 := runCalls_inv_le (execute b t0
      (Except.error () : Except Unit Unit)).2.1 (failCalls (ts ++ [tN]))
    rw [failCalls_length, List.length_append, List.length_singleton] at hle2
    simp only [List.length_cons] at hinv hge
    have h1 : (execute b t0 (Except.error () : Except Unit Unit)).2.2 = 1 := by
      omega
    have h2 : (runCalls (execute b t0 (Except.error () : Except Unit Unit)).2.1
        (failCalls (ts ++ [tN]))).2 = ts.length + 1 := by omega
    have hb1 := execute_error_invoked b t0 () h1
    set b1 := (execute b t0 (Except.error () : Except Unit Unit)).2.1
      with hb1def
    have hb1eq : b1 = onFailure (beginExecute b t0).1 t0 := by
      rw [hb1def, hb1]
    have hopts : b1.options = b.options := by
      rw [hb1eq, onFailure_options, beginExecute_options]
    have hcount : b1.failureCount = b.failureCount + 1 := by
      rw [hb1eq, onFailure_failureCount, beginExecute_failureCount]
    have ihr := ih tN b1 (by rw [hopts]; exact ht) (by rw [hopts]; exact hr)
      h2 (by rw [hcount]; omega)
    exact ihr

/-! ### Claim C1 -/

/-- Claim C1: for every breaker starting CLOSED with failure count 0 and
every sequence of N consecutive failed calls (each invoking the underlying
operation) with N at least the failure threshold, the breaker is OPEN
immediately after the Nth failure with next-retry timestamp equal to the
Nth failure time plus the recovery timeout, and every execute call made
while the current time is before that timestamp is rejected with the
breaker-open error without invoking the underlying operation. -/
theorem c1_consecutive_failures_open_then_fail_fast (t r : Nat)
    (ts : List Nat) (tN : Nat)
    (hinv : (runCalls (freshBreaker t r) (failCalls (ts ++ [tN]))).2 =
      ts.length + 1)
    (hN : t ≤ ts.length + 1) :
    (runCalls (freshBreaker t r) (failCalls (ts ++ [tN]))).1.state = .OPEN ∧
    (runCalls (freshBreaker t r) (failCalls (ts ++ [tN]))).1.nextRetryTime =
      some (tN + r) ∧
    ∀ (now : Nat) (op : Except Unit Unit), now < tN + r →
      execute (runCalls (freshBreaker t r) (failCalls (ts ++ [tN]))).1 now op =
        (.breakerOpen, (runCalls (freshBreaker t r) (failCalls (ts ++ [tN]))).1,
         0) := by
  have hcount : (freshBreaker t r).failureCount = 0 := rfl
  have h := runFails_open t r ts tN (freshBreaker t r) rfl rfl hinv
    (by rw [hcount]; omega)
  exact ⟨h.1, h.2, fun now op hlt =>
    execute_rejects _ now op (tN + r) h.1 h.2 hlt⟩

theorem c1_witness :
    (runCalls (freshBreaker 2 10) (failCalls ([3] ++ [7]))).1.state =
      CircuitState.OPEN ∧
    (runCalls (freshBreaker 2 10) (failCalls ([3] ++ [7]))).1.nextRetryTime =
      some 17 := by
  have h := c1_consecutive_failures_open_then_fail_fast 2 10 [3] 7
    (by decide) (by decide)
  exact ⟨h.1, h.2.1⟩

/-! ### Runs below the threshold, and successes -/

theorem beginExecute_not_open (b : CircuitBreaker) (now : Nat)
    (h : b.state ≠ .OPEN) : beginExecute b now = (b, true) := by
  unfold beginExecute
  rw [if_neg h]

theorem onFailure_below (b : CircuitBreaker) (now t : Nat)
    (ht : b.options.failureThreshold = some t)
    (hlt : b.failureCount + 1 < t) :
    onFailure b now = { b with failureCount := b.failureCount + 1,
                               lastFailureTime := some now } := by
  unfold onFailure
  rw [ht]
  dsimp only
  rw [if_neg (by omega)]

theorem onSuccess_failureCount (b : CircuitBreaker) :
    (onSuccess b).failureCount = 0 := by
  unfold onSuccess
  dsimp only
  split <;> rfl

theorem onSuccess_options (b : CircuitBreaker) :
    (onSuccess b).options = b.options := by
  unfold onSuccess
  dsimp only
  split <;> rfl

theorem onSuccess_state_closed (b : CircuitBreaker) (h : b.state = .CLOSED) :
    (onSuccess b).state = .CLOSED := by
  unfold onSuccess
  dsimp only
  rw [if_neg (by rw [h]; exact fun hc => by cases hc)]
  exact h

theorem onSuccess_state_half_open (b : CircuitBreaker)
    (h : b.state = .HALF_OPEN) : (onSuccess b).state = .CLOSED := by
  unfold onSuccess
  dsimp only
  rw [if_pos h]

/-- Strictly below the threshold, a run of failing calls from CLOSED keeps
the breaker CLOSED, invokes the operation every time, and accumulates the
failure count. -/
theorem runFails_closed (t : Nat) (ts : List Nat) :
    ∀ (b : CircuitBreaker),
    b.state = .CLOSED →
    b.options.failureThreshold = some t →
    b.failureCount + ts.length < t →
    (runCalls b (failCalls ts)).1.state = .CLOSED ∧
    (runCalls b (failCalls ts)).1.failureCount = b.failureCount + ts.length ∧
    (runCalls b (failCalls ts)).1.options = b.options ∧
    (runCalls b (failCalls ts)).2 = ts.length := by
  induction ts with
  | nil =>
    intro b hs ht hlt
    simp [failCalls_nil, runCalls_nil, hs]
  | cons t0 ts ih =>
    intro b hs ht hlt
    rw [failCalls_cons, runCalls_cons]
    dsimp only
    have hbe := beginExecute_not_open b t0
      (by rw [hs]; exact fun hc => by cases hc)
    simp only [List.length_cons] at hlt
    have hex : execute b t0 (Except.error () : Except Unit Unit) =
        (.opError (), onFailure b t0, 1) := by
      rw [execute_error_eq, hbe]
      simp
    rw [hex]
    dsimp only
    have hih := ih (onFailure b t0)
      (by rw [onFailure_below b t0 t ht (by omega)]; exact hs)
      (by rw [onFailure_options]; exact ht)
      (by rw [onFailure_failureCount]; omega)
    refine ⟨hih.1, ?_, ?_, ?_⟩
    · rw [hih.2.1, onFailure_failureCount]
      simp only [List.length_cons]
      omega
    · rw [hih.2.2.1, onFailure_options]
    · rw [hih.2.2.2]
      simp only [List.length_cons]
      omega

theorem runCalls_append {ε α : Type} (cs1 cs2 : List (Nat × Except ε α)) :
    ∀ (b : CircuitBreaker),
    runCalls b (cs1 ++ cs2) =
      ((runCalls (runCalls b cs1).1 cs2).1,
       (runCalls b cs1).2 + (runCalls (runCalls b cs1).1 cs2).2) := by
  induction cs1 with
  | nil =>
    intro b
    rw [List.nil_append, runCalls_nil]
    dsimp only
    rw [Nat.zero_add]
  | cons c rest ih =>
    intro b
    rw [List.cons_append, runCalls_cons, runCalls_cons]
    dsimp only
    rw [ih]
    dsimp only
    rw [Nat.add_assoc]

/-! ### Claim C4 -/

/-- Claim C4: an execute call that invokes the operation and succeeds
resets the failure count to zero, and consequently a run of
failureThreshold - 1 failures, one success, then failureThreshold - 1 more
failures leaves a fresh breaker in a state other than OPEN. -/
theorem c4_success_resets_failure_count (t r : Nat) (ts1 ts2 : List Nat)
    (tmid : Nat) (ht : 1 ≤ t) (h1 : ts1.length = t - 1)
    (h2 : ts2.length = t - 1) :
    (∀ (b : CircuitBreaker) (now : Nat),
      (execute b now (Except.ok () : Except Unit Unit)).2.2 = 1 →
      (execute b now (Except.ok () : Except Unit Unit)).2.1.failureCount = 0) ∧
    (runCalls (freshBreaker t r)
      (failCalls ts1 ++ [(tmid, Except.ok ())] ++ failCalls ts2)).1.state ≠
      CircuitState.OPEN := by
  constructor
  · intro b now hinv
    cases hbe : (beginExecute b now).2 with
    | false =>
      rw [execute_ok_eq, hbe] at hinv
      simp at hinv
    | true =>
      rw [execute_ok_eq, hbe]
      simp only [if_true]
      exact onSuccess_failureCount _
  · have hstart : (freshBreaker t r).state = .CLOSED := rfl
    have hopts : (freshBreaker t r).options.failureThreshold = some t := rfl
    have hcnt : (freshBreaker t r).failureCount = 0 := rfl
    have hrun1 := runFails_closed t ts1 (freshBreaker t r) hstart hopts
      (by rw [hcnt, h1]; omega)
    set b1 := (runCalls (freshBreaker t r) (failCalls ts1)).1 with hb1
    have hbe := beginExecute_not_open b1 tmid
      (by rw [hrun1.1]; exact fun hc => by cases hc)
    have hex : execute b1 tmid (Except.ok () : Except Unit Unit) =
        (.ok (), onSuccess b1, 1) := by
      rw [execute_ok_eq, hbe]
      simp
    have hmid : runCalls b1 [(tmid, (Except.ok () : Except Unit Unit))] =
        (onSuccess b1, 1) := by
      rw [runCalls_cons]
      dsimp only
      rw [hex, runCalls_nil]
      rfl
    have hrun2 := runFails_closed t ts2 (onSuccess b1)
      (onSuccess_state_closed b1 hrun1.1)
      (by rw [onSuccess_options, hrun1.2.2.1]; exact hopts)
      (by rw [onSuccess_failureCount, h2]; omega)
    rw [runCalls_append, runCalls_append]
    dsimp only
    rw [hmid]
    dsimp only
    rw [hrun2.1]
    exact fun hc => by cases hc

theorem c4_witness :
    (runCalls (freshBreaker 3 10)
      (failCalls [1, 2] ++ [(5, Except.ok ())] ++ failCalls [8, 9])).1.state ≠
      CircuitState.OPEN :=
  (c4_success_resets_failure_count 3 10 [1, 2] [8, 9] 5 (by decide) (by decide)
    (by decide)).2

/-! ### Claim C5 -/

/-- Claim C5 amended: in HALF_OPEN, a successful probe call always
transitions the breaker to CLOSED and resets the failure counter; a
failing probe call transitions it back to OPEN with a next-retry timestamp
equal to the failure time plus the recovery timeout exactly when the
incremented failure count reaches the threshold; when a success that
settled while the breaker was OPEN has already zeroed the count below
threshold minus one, the failing probe instead leaves the breaker in
HALF_OPEN with its stale next-retry timestamp unchanged. -/
theorem c5_amended_probe_settlement {ε α : Type} (b : CircuitBreaker)
    (hs : b.state = .HALF_OPEN) :
    (∀ (now : Nat) (v : α),
      (execute (ε := ε) b now (Except.ok v)).1 = .ok v ∧
      (execute (ε := ε) b now (Except.ok v)).2.1.state = .CLOSED ∧
      (execute (ε := ε) b now (Except.ok v)).2.1.failureCount = 0) ∧
    (∀ (now : Nat) (e : ε) (t r : Nat),
      b.options.failureThreshold = some t →
      b.options.recoveryTimeout = some r →
      t ≤ b.failureCount + 1 →
      (execute (α := α) b now (Except.error e)).1 = .opError e ∧
      (execute (α := α) b now (Except.error e)).2.1.state = .OPEN ∧
      (execute (α := α) b now (Except.error e)).2.1.nextRetryTime =
        some (now + r)) ∧
    (∀ (now : Nat) (e : ε) (t : Nat),
      b.options.failureThreshold = some t →
      b.failureCount + 1 < t →
      (execute (α := α) b now (Except.error e)).1 = .opError e ∧
      (execute (α := α) b now (Except.error e)).2.1.state = .HALF_OPEN ∧
      (execute (α := α) b now (Except.error e)).2.1.nextRetryTime =
        b.nextRetryTime) := by
  have hne : b.state ≠ .OPEN := by rw [hs]; exact fun hc => by cases hc
  refine ⟨?_, ?_, ?_⟩
  · intro now v
    rw [execute_proceed_ok b b now v (beginExecute_not_open b now hne)]
    exact ⟨rfl, onSuccess_state_half_open b hs, onSuccess_failureCount b⟩
  · intro now e t r ht hr hge
    rw [execute_proceed_error b b now e (beginExecute_not_open b now hne)]
    have ho := onFailure_opens b now t r ht hr hge
    exact ⟨rfl, ho.1, ho.2⟩
  · intro now e t ht hlt
    rw [execute_proceed_error b b now e (beginExecute_not_open b now hne)]
    rw [onFailure_below b now t ht hlt]
    exact ⟨rfl, hs, rfl⟩

theorem c5_amended_witness :
    (execute (ε := Nat) halfOpenProbe 100 (Except.ok 7)).2.1.state =
      CircuitState.CLOSED ∧
    (execute (α := Nat) halfOpenProbe 100
      (Except.error 9)).2.1.nextRetryTime = some 110 ∧
    (execute (α := Nat) staleHalfOpen 13 (Except.error 9)).2.1.state =
      CircuitState.HALF_OPEN := by
  have h1 := c5_amended_probe_settlement (ε := Nat) (α := Nat)
    halfOpenProbe rfl
  have h2 := c5_amended_probe_settlement (ε := Nat) (α := Nat)
    staleHalfOpen rfl
  exact ⟨(h1.1 100 7).2.1, (h1.2.1 100 9 2 10 rfl rfl (by decide)).2.2,
    (h2.2.2 13 9 2 rfl (by decide)).2.1⟩

/-- Claim C5 as stated is false on the code: staleHalfOpen is a HALF_OPEN
breaker reached through the transitions of the source itself (a success
that settled while the breaker was OPEN zeroed the failure count without
leaving OPEN), and from it a failing probe call at time 13 does NOT
transition back to OPEN with the recomputed next-retry timestamp 23 the
claim demands: the breaker stays HALF_OPEN and keeps the stale
timestamp 12. -/
theorem c5_counterexample_stale_half_open :
    staleHalfOpen.state = CircuitState.HALF_OPEN ∧
    staleHalfOpen.failureCount = 0 ∧
    ¬ ((execute (α := Unit) staleHalfOpen 13
      (Except.error ())).2.1.state = CircuitState.OPEN) ∧
    (execute (α := Unit) staleHalfOpen 13
      (Except.error ())).2.1.nextRetryTime = some 12 ∧
    ¬ ((execute (α := Unit) staleHalfOpen 13
      (Except.error ())).2.1.nextRetryTime = some 23) := by
  decide

/-! ### Claim C9 -/

theorem onFailure_lastFailureTime (b : CircuitBreaker) (now : Nat) :
    (onFailure b now).lastFailureTime = some now := by
  unfold onFailure
  split
  · dsimp only
    split <;> rfl
  · rfl

/-- Claim C9: an execute call whose operation is invoked and throws
increments the failure count, records the failure time, and re-raises
exactly the exception the operation itself threw; and no execute call ever invokes
the operation more than once. -/
theorem c9_failure_bookkeeping_and_rethrow (b : CircuitBreaker) (now : Nat)
    (e : Nat) (hinv : (execute (α := Nat) b now (Except.error e)).2.2 = 1) :
    (execute (α := Nat) b now (Except.error e)).1 = .opError e ∧
    (execute (α := Nat) b now (Except.error e)).2.1.failureCount =
      b.failureCount + 1 ∧
    (execute (α := Nat) b now (Except.error e)).2.1.lastFailureTime =
      some now ∧
    ∀ (b2 : CircuitBreaker) (now2 : Nat) (op : Except Nat Nat),
      (execute b2 now2 op).2.2 ≤ 1 := by
  rw [execute_error_invoked b now e hinv]
  refine ⟨rfl, ?_, ?_, fun b2 now2 op => execute_inv_le b2 now2 op⟩
  · rw [onFailure_failureCount, beginExecute_failureCount]
  · rw [onFailure_lastFailureTime]

theorem c9_witness :
    (execute (α := Nat) (freshBreaker 5 10) 3 (Except.error 42)).1 =
      ExecResult.opError 42 ∧
    (execute (α := Nat) (freshBreaker 5 10) 3
      (Except.error 42)).2.1.failureCount = 1 := by
  have h := c9_failure_bookkeeping_and_rethrow (freshBreaker 5 10) 3 42
    (by decide)
  exact ⟨h.1, h.2.1⟩

/-! ### Claim C10 -/

theorem onFailure_no_threshold (b : CircuitBreaker) (now : Nat)
    (h : b.options.failureThreshold = none) :
    onFailure b now = { b with failureCount := b.failureCount + 1,
                               lastFailureTime := some now } := by
  unfold onFailure
  rw [h]

theorem runFails_no_threshold (ts : List Nat) :
    ∀ (b : CircuitBreaker), b.state = .CLOSED →
    b.options.failureThreshold = none →
    (runCalls b (failCalls ts)).1.state = .CLOSED := by
  induction ts with
  | nil =>
    intro b hs _
    rw [failCalls_nil, runCalls_nil]
    exact hs
  | cons t0 ts ih =>
    intro b hs hnone
    rw [failCalls_cons, runCalls_cons]
    dsimp only
    have hbe := beginExecute_not_open b t0
      (by rw [hs]; exact fun hc => by cases hc)
    rw [execute_proceed_error b b t0 () hbe]
    dsimp only
    exact ih (onFailure b t0)
      (by rw [onFailure_no_threshold b t0 hnone]; exact hs)
      (by rw [onFailure_options]; exact hnone)

theorem getOrCreateBreaker_new (reg : Registry) (name : String)
    (opts : Option CircuitBreakerOptions) (h : reg name = none) :
    getOrCreateBreaker reg name opts =
      (mkCircuitBreaker opts,
       fun m => if m = name then some (mkCircuitBreaker opts) else reg m) := by
  unfold getOrCreateBreaker
  rw [h]

/-- Claim C10 (implicit): a breaker obtained from getOrCreateBreaker with a
partial options object that omits failureThreshold never leaves CLOSED:
the supplied options replace the constructor defaults wholesale, the
threshold comparison against the absent field never holds, and under every
sequence of failed calls the state remains CLOSED. -/
theorem c10_missing_threshold_never_opens (reg : Registry) (name : String)
    (o : CircuitBreakerOptions) (ts : List Nat)
    (hnew : reg name = none) (hmiss : o.failureThreshold = none) :
    (runCalls (getOrCreateBreaker reg name (some o)).1
      (failCalls ts)).1.state = .CLOSED := by
  rw [getOrCreateBreaker_new reg name (some o) hnew]
  dsimp only
  exact runFails_no_threshold ts (mkCircuitBreaker (some o)) rfl hmiss

theorem c10_witness :
    (runCalls (getOrCreateBreaker emptyRegistry hnEndpoint
      (some { failureThreshold := none, recoveryTimeout := some 5,
              monitoringPeriod := none })).1
      (failCalls [1, 2, 3, 4, 5, 6, 7])).1.state = CircuitState.CLOSED :=
  c10_missing_threshold_never_opens emptyRegistry hnEndpoint
    { failureThreshold := none, recoveryTimeout := some 5,
      monitoringPeriod := none } [1, 2, 3, 4, 5, 6, 7] rfl rfl

/-! ### Claim C8 -/

theorem getOrCreateBreaker_existing (reg : Registry) (name : String)
    (opts : Option CircuitBreakerOptions) (b : CircuitBreaker)
    (h : reg name = some b) :
    getOrCreateBreaker reg name opts = (b, reg) := by
  unfold getOrCreateBreaker
  rw [h]

theorem getOrCreateBreaker_other (reg : Registry) (name m : String)
    (opts : Option CircuitBreakerOptions) (h : m ≠ name) :
    (getOrCreateBreaker reg name opts).2 m = reg m := by
  unfold getOrCreateBreaker
  cases hr : reg name with
  | some b => rfl
  | none =>
    dsimp only
    rw [if_neg h]

theorem registryExecute_eq {ε α : Type} (reg : Registry) (name : String)
    (now : Nat) (op : Except ε α) :
    registryExecute reg name now op =
      ((execute (getOrCreateBreaker reg name none).1 now op).1,
       fun m => if m = name then
         some (execute (getOrCreateBreaker reg name none).1 now op).2.1
       else (getOrCreateBreaker reg name none).2 m) := rfl

/-- Claim C8: the registry maps each endpoint name to a single breaker
instance: the first getOrCreateBreaker call for a name creates and stores
a breaker and later calls with the same name return that same stored
instance; a failure recorded through one call site is observed (failure
count incremented) by any other call site reading the same name; and a
call through one name leaves the entry of every other name untouched. -/
theorem c8_registry_one_breaker_per_name :
    (∀ (reg : Registry) (name : String) (o o2 : Option CircuitBreakerOptions),
      reg name = none →
      (getOrCreateBreaker reg name o).2 name =
        some (getOrCreateBreaker reg name o).1 ∧
      getOrCreateBreaker (getOrCreateBreaker reg name o).2 name o2 =
        ((getOrCreateBreaker reg name o).1, (getOrCreateBreaker reg name o).2)) ∧
    (∀ (reg : Registry) (name : String) (now e : Nat),
      (execute (α := Nat) (getOrCreateBreaker reg name none).1 now
        (Except.error e)).2.2 = 1 →
      (getOrCreateBreaker
        ((registryExecute (α := Nat) reg name now (Except.error e)).2)
        name none).1.failureCount =
        (getOrCreateBreaker reg name none).1.failureCount + 1) ∧
    (∀ (reg : Registry) (name m : String) (now : Nat) (op : Except Nat Nat),
      m ≠ name → (registryExecute reg name now op).2 m = reg m) := by
  refine ⟨?_, ?_, ?_⟩
  · intro reg name o o2 h
    rw [getOrCreateBreaker_new reg name o h]
    dsimp only
    constructor
    · rw [if_pos rfl]
    · exact getOrCreateBreaker_existing _ name o2 _ (by rw [if_pos rfl])
  · intro reg name now e hinv
    rw [registryExecute_eq]
    dsimp only
    rw [getOrCreateBreaker_existing _ name none _ (by rw [if_pos rfl])]
    dsimp only
    rw [execute_error_invoked _ now e hinv]
    dsimp only
    rw [onFailure_failureCount, beginExecute_failureCount]
  · intro reg name m now op hm
    rw [registryExecute_eq]
    dsimp only
    rw [if_neg hm]
    exact getOrCreateBreaker_other reg name m none hm

theorem c8_witness :
    (getOrCreateBreaker
      ((registryExecute (α := Nat) emptyRegistry storiesEndpoint 5
        (Except.error 0)).2) storiesEndpoint none).1.failureCount = 1 := by
  have h := c8_registry_one_breaker_per_name.2.1 emptyRegistry storiesEndpoint 5 0
    (by decide)
  rw [h]
  rfl

/-! ### Claim C2 -/

theorem cbRetryRun_zero {ε α : Type} (bop : Nat → Except ε α)
    (times : Nat → Nat) (b : CircuitBreaker) (a : Nat) :
    cbRetryRun bop times b a 0 =
      ((execute b (times a) (bop a)).1, (execute b (times a) (bop a)).2.1, 1,
       (execute b (times a) (bop a)).2.2) := rfl

/-- Claim C2 amended: while the breaker is OPEN and every attempt happens
before the next-retry timestamp, the composed retry-plus-breaker path
invokes the underlying operation zero times, but the retry helper DOES
re-attempt the breaker call after each breaker-open rejection: it makes
one breaker call per retry attempt (maxRetries + 1 in all) and then
propagates the breaker-open rejection. -/
theorem c2_amended_breaker_open_is_retried (bop : Nat → Except Nat Nat)
    (times : Nat → Nat) (b : CircuitBreaker) (v : Nat)
    (hs : b.state = .OPEN) (hv : b.nextRetryTime = some v)
    (ht : ∀ i, times i < v) :
    ∀ (n a : Nat), cbRetryRun bop times b a n = (.breakerOpen, b, n + 1, 0) := by
  intro n
  induction n with
  | zero =>
    intro a
    rw [cbRetryRun_zero, execute_rejects b (times a) (bop a) v hs hv (ht a)]
  | succ n ih =>
    intro a
    simp only [cbRetryRun]
    rw [execute_rejects b (times a) (bop a) v hs hv (ht a)]
    dsimp only
    rw [ih (a + 1)]
    rfl

theorem c2_amended_witness :
    cbRetryRun (fun _ => (Except.error 0 : Except Nat Nat)) (fun _ => 0)
      { mkCircuitBreaker none with state := .OPEN, nextRetryTime := some 1000, failureCount := 5 }
      0 3 =
      (.breakerOpen,
       { mkCircuitBreaker none with state := .OPEN, nextRetryTime := some 1000, failureCount := 5 },
       4, 0) :=
  c2_amended_breaker_open_is_retried (fun _ => Except.error 0) (fun _ => 0)
    { mkCircuitBreaker none with state := .OPEN, nextRetryTime := some 1000, failureCount := 5 }
    1000 rfl rfl (fun _ => by show (0 : Nat) < 1000; decide) 3 0

/-- Claim C2 as stated is false on the code: with the default retry budget
(maxRetries = 3), an OPEN breaker whose next-retry timestamp has not
passed is called 4 times by the retry loop - the breaker call IS
re-attempted after the breaker-open rejection - while the underlying
operation is indeed invoked zero times. -/
theorem c2_counterexample_breaker_call_reattempted :
    (cbRetryRun (fun _ => (Except.error 0 : Except Nat Nat)) (fun _ => 0)
      { mkCircuitBreaker none with state := .OPEN, nextRetryTime := some 1000, failureCount := 5 }
      0 defaultRetryOptions.maxRetries).2.2.2 = 0 ∧
    ¬ ((cbRetryRun (fun _ => (Except.error 0 : Except Nat Nat)) (fun _ => 0)
      { mkCircuitBreaker none with state := .OPEN, nextRetryTime := some 1000, failureCount := 5 }
      0 defaultRetryOptions.maxRetries).2.2.1 ≤ 1) := by
  decide

/-! ### Claim C3 -/

/-- Claim C3 amended: after the next-retry timestamp elapses, the very next
execute call transitions the breaker to HALF_OPEN and invokes the
underlying operation; but the breaker does not serialize the probe: any
execute call interleaved while the breaker is HALF_OPEN (before the probe
settles) also passes the guard and invokes the underlying operation. -/
theorem c3_amended_probe_not_serialized :
    (∀ (b : CircuitBreaker) (now : Nat), b.state = .OPEN →
      timeLt now b.nextRetryTime = false →
      beginExecute b now = ({ b with state := .HALF_OPEN }, true)) ∧
    (∀ (b : CircuitBreaker) (now : Nat), b.state = .HALF_OPEN →
      beginExecute b now = (b, true)) := by
  constructor
  · intro b now hs hlt
    unfold beginExecute
    rw [if_pos hs, hlt]
    simp
  · intro b now hs
    exact beginExecute_not_open b now (by rw [hs]; exact fun hc => by cases hc)

theorem c3_amended_witness :
    (beginExecute
      { mkCircuitBreaker none with state := .OPEN, nextRetryTime := some 50, failureCount := 5 }
      100).1.state = CircuitState.HALF_OPEN := by
  have h := c3_amended_probe_not_serialized.1
    { mkCircuitBreaker none with state := .OPEN, nextRetryTime := some 50, failureCount := 5 }
    100 rfl rfl
  rw [h]

/-- Claim C3 as stated is false on the code: from an OPEN breaker whose
next-retry timestamp (50) has elapsed, two interleaved execute calls at
time 100 - neither probe yet settled - BOTH pass the guard and invoke the
underlying operation: the code does not hold other calls back until the
HALF_OPEN probe completes. -/
theorem c3_counterexample_two_concurrent_probes :
    ¬ ((pendingBegins
      { mkCircuitBreaker none with state := .OPEN, nextRetryTime := some 50, failureCount := 5 }
      [100, 100]).2 ≤ 1) := by
  decide

/-! ### Claim C6 -/

theorem retryRun_zero {ε α : Type} (op : Nat → Except ε α)
    (cfg : RetryOptions) (rand : Nat → ℚ) (a : Nat) :
    retryRun op cfg rand a 0 = (op a, 1, []) := rfl

theorem retryRun_succ_ok {ε α : Type} (op : Nat → Except ε α)
    (cfg : RetryOptions) (rand : Nat → ℚ) (a n : Nat) (v : α)
    (h : op a = Except.ok v) :
    retryRun op cfg rand a (n + 1) = (.ok v, 1, []) := by
  simp only [retryRun]
  rw [h]

theorem retryRun_succ_error {ε α : Type} (op : Nat → Except ε α)
    (cfg : RetryOptions) (rand : Nat → ℚ) (a n : Nat) (e : ε)
    (h : op a = Except.error e) :
    retryRun op cfg rand a (n + 1) =
      ((retryRun op cfg rand (a + 1) n).1,
       (retryRun op cfg rand (a + 1) n).2.1 + 1,
       computeDelay cfg (rand a) a :: (retryRun op cfg rand (a + 1) n).2.2) := by
  simp only [retryRun]
  rw [h]

/-- If every invocation fails, the run from attempt `a` with budget `n`
makes exactly `n + 1` invocations and re-throws the error of the last
invocation (attempt `a + n`) unchanged. -/
theorem retryRun_all_fail {ε α : Type} (op : Nat → Except ε α)
    (cfg : RetryOptions) (rand : Nat → ℚ) (errf : Nat → ε)
    (hop : ∀ i, op i = Except.error (errf i)) :
    ∀ (n a : Nat),
    (retryRun (α := α) op cfg rand a n).1 = Except.error (errf (a + n)) ∧
    (retryRun (α := α) op cfg rand a n).2.1 = n + 1 := by
  intro n
  induction n with
  | zero =>
    intro a
    rw [retryRun_zero, hop a]
    exact ⟨rfl, rfl⟩
  | succ n ih =>
    intro a
    rw [retryRun_succ_error op cfg rand a n (errf a) (hop a)]
    dsimp only
    have h := ih (a + 1)
    refine ⟨?_, by rw [h.2]⟩
    rw [h.1]
    have : a + 1 + n = a + (n + 1) := by omega
    rw [this]

/-- Claim C6: with maxRetries = 2, an operation failing on its first two
invocations and succeeding on the third makes executeWithRetry return the
success value after exactly 3 invocations; and for every maxRetries, an
operation that always fails is invoked exactly maxRetries + 1 times and
the error of the last invocation is propagated unchanged. -/
theorem c6_retry_counts_and_last_error :
    (∀ (op : Nat → Except Nat Nat) (cfg : RetryOptions) (rand : Nat → ℚ)
       (e0 e1 v : Nat),
      cfg.maxRetries = 2 → op 0 = Except.error e0 → op 1 = Except.error e1 →
      op 2 = Except.ok v →
      (executeWithRetry op cfg rand).1 = Except.ok v ∧
      (executeWithRetry op cfg rand).2.1 = 3) ∧
    (∀ (op : Nat → Except Nat Nat) (cfg : RetryOptions) (rand : Nat → ℚ)
       (errf : Nat → Nat),
      (∀ i, op i = Except.error (errf i)) →
      (executeWithRetry op cfg rand).1 = Except.error (errf cfg.maxRetries) ∧
      (executeWithRetry op cfg rand).2.1 = cfg.maxRetries + 1) := by
  constructor
  · intro op cfg rand e0 e1 v hm h0 h1 h2
    unfold executeWithRetry
    rw [hm]
    have ha : retryRun op cfg rand 2 0 = (Except.ok v, 1, []) := by
      rw [retryRun_zero, h2]
    have hb := retryRun_succ_error op cfg rand 1 0 e1 h1
    norm_num at hb
    rw [ha] at hb
    have hc := retryRun_succ_error op cfg rand 0 1 e0 h0
    norm_num at hc
    rw [hb] at hc
    rw [hc]
    exact ⟨rfl, rfl⟩
  · intro op cfg rand errf hop
    unfold executeWithRetry
    have h := retryRun_all_fail op cfg rand errf hop cfg.maxRetries 0
    rw [Nat.zero_add] at h
    exact h

theorem c6_witness :
    (executeWithRetry (fun i => if i < 2 then Except.error 9 else Except.ok 42)
      { defaultRetryOptions with maxRetries := 2 } (fun _ => 1 / 2)).1 =
      Except.ok 42 ∧
    (executeWithRetry (fun i => if i < 2 then Except.error 9 else Except.ok 42)
      { defaultRetryOptions with maxRetries := 2 } (fun _ => 1 / 2)).2.1 =
      3 := by
  have h := c6_retry_counts_and_last_error.1
    (fun i => if i < 2 then Except.error 9 else Except.ok 42)
    { defaultRetryOptions with maxRetries := 2 } (fun _ => 1 / 2)
    9 9 42 rfl rfl rfl rfl
  exact h

/-! ### Claim C7 -/

theorem retryRun_count_pos {ε α : Type} (op : Nat → Except ε α)
    (cfg : RetryOptions) (rand : Nat → ℚ) :
    ∀ (n a : Nat), 1 ≤ (retryRun op cfg rand a n).2.1 := by
  intro n
  induction n with
  | zero =>
    intro a
    rw [retryRun_zero]
  | succ n ih =>
    intro a
    cases hop : op a with
    | ok v =>
      rw [retryRun_succ_ok op cfg rand a n v hop]
    | error e =>
      rw [retryRun_succ_error op cfg rand a n e hop]
      dsimp only
      omega

/-- The delays a run sleeps are exactly one per non-final failed attempt:
with k invocations made, attempts `a, a+1, ..., a+k-2` each contribute
their computed backoff delay, and the final attempt contributes none. -/
theorem retryRun_delays {ε α : Type} (op : Nat → Except ε α)
    (cfg : RetryOptions) (rand : Nat → ℚ) :
    ∀ (n a : Nat),
    (retryRun op cfg rand a n).2.2 =
      (List.range ((retryRun op cfg rand a n).2.1 - 1)).map
        (fun i => computeDelay cfg (rand (a + i)) (a + i)) := by
  intro n
  induction n with
  | zero =>
    intro a
    rw [retryRun_zero]
    simp
  | succ n ih =>
    intro a
    cases hop : op a with
    | ok v =>
      rw [retryRun_succ_ok op cfg rand a n v hop]
      simp
    | error e =>
      rw [retryRun_succ_error op cfg rand a n e hop]
      dsimp only
      have hpos := retryRun_count_pos op cfg rand n (a + 1)
      obtain ⟨m, hm⟩ : ∃ m, (retryRun op cfg rand (a + 1) n).2.1 = m + 1 :=
        ⟨(retryRun op cfg rand (a + 1) n).2.1 - 1, by omega⟩
      rw [hm, Nat.add_sub_cancel, ih (a + 1), hm, Nat.add_sub_cancel]
      rw [List.range_succ_eq_map, List.map_cons, List.map_map]
      congr 1
      apply List.map_congr_left
      intro i _
      simp only [Function.comp_apply, Nat.succ_eq_add_one]
      have h1 : a + 1 + i = a + (i + 1) := by omega
      rw [h1]

/-- Claim C7: after every failed non-final attempt numbered `attempt`, the
helper waits `min(baseDelay * multiplier^attempt, maxDelay)`, inflated by
at most 10 percent when jitter is on (`Math.random()` draw `r` with
`0 <= r < 1`); across a whole run the delays slept are exactly one per
non-final failed attempt with that formula, and none after the final
attempt. -/
theorem c7_backoff_delay_bounds :
    (∀ (cfg : RetryOptions) (r : ℚ) (attempt : Nat),
      0 ≤ cfg.baseDelayMs → 0 ≤ cfg.backoffMultiplier → 0 ≤ cfg.maxDelayMs →
      0 ≤ r → r < 1 →
      rawDelay cfg attempt ≤ computeDelay cfg r attempt ∧
      computeDelay cfg r attempt ≤ rawDelay cfg attempt * (11 / 10)) ∧
    (∀ (op : Nat → Except Nat Nat) (cfg : RetryOptions) (rand : Nat → ℚ),
      (executeWithRetry op cfg rand).2.2 =
        (List.range ((executeWithRetry op cfg rand).2.1 - 1)).map
          (fun i => computeDelay cfg (rand i) i)) := by
  constructor
  · intro cfg r attempt hb hm hx hr0 hr1
    have hd0 : 0 ≤ rawDelay cfg attempt :=
      le_min (mul_nonneg hb (pow_nonneg hm attempt)) hx
    unfold computeDelay
    dsimp only
    split
    · constructor
      · nlinarith
      · nlinarith
    · constructor
      · exact le_refl _
      · nlinarith
  · intro op cfg rand
    unfold executeWithRetry
    rw [retryRun_delays op cfg rand cfg.maxRetries 0]
    apply List.map_congr_left
    intro i _
    rw [Nat.zero_add]

theorem c7_witness :
    rawDelay defaultRetryOptions 2 ≤
      computeDelay defaultRetryOptions (1 / 2) 2 ∧
    computeDelay defaultRetryOptions (1 / 2) 2 ≤
      rawDelay defaultRetryOptions 2 * (11 / 10) :=
  c7_backoff_delay_bounds.1 defaultRetryOptions (1 / 2) 2
    (by norm_num [defaultRetryOptions]) (by norm_num [defaultRetryOptions])
    (by norm_num [defaultRetryOptions]) (by norm_num) (by norm_num)

end SlashNews
